import Mathlib

/-!
# Verification of the fabric-token-sdk local token store and audit decomposition

Shallow embedding of the Go sources:

* `token/services/ttxdb/db.go` — the transaction store front-end `DB`
  (`TransactionRecords`, `Movements`, `SetStatus`, `GetTokenRequest`,
  `AppendTransactionRecord`, `AppendValidationRecord`);
* the SQL-backed token store `TokenDB` (`GetTokens`);
* the reconciliation view `CheckTTXDBView.Call` (vault-status cross-check).

Go slices become `List`, `*big.Int` becomes `Int`, `time.Time` becomes a
`Nat` tick, byte slices become `List Nat`, and fallible calls return
`Except String`.  Collaborators whose code is not part of the analysed
sources (the token-stream helpers, the driver backends, the cache) are
modelled from the specification and marked as such in their doc comments.
-/

namespace FabricTokenSDK

/-- Transaction status (`driver.TxStatus`): unknown, pending, confirmed, deleted. -/
inductive TxStatus where
  | unknown
  | pending
  | confirmed
  | deleted
deriving DecidableEq, Repr

/-- Action type (`driver.ActionType`): issue, transfer, redeem. -/
inductive ActionType where
  | issue
  | transfer
  | redeem
deriving DecidableEq, Repr

/-- One input or output of an audit record (`token.Input` / `token.Output`):
action index, enrollment id, token type and amount. -/
structure IORec where
  actionIndex : Nat
  enrollmentID : String
  tokenType : String
  amount : Int
deriving DecidableEq, Repr

/-- `token.AuditRecord`: anchor (tx id), inputs and outputs. -/
structure AuditRecord where
  anchor : String
  inputs : List IORec
  outputs : List IORec
deriving DecidableEq, Repr

/-- `driver.TransactionRecord`. -/
structure TransactionRecord where
  txID : String
  senderEID : String
  recipientEID : String
  tokenType : String
  amount : Int
  status : TxStatus
  actionType : ActionType
  timestamp : Nat
deriving DecidableEq, Repr

/-- `driver.MovementRecord`. -/
structure MovementRecord where
  txID : String
  enrollmentID : String
  amount : Int
  tokenType : String
  timestamp : Nat
  status : TxStatus
deriving DecidableEq, Repr

/-- First-occurrence deduplication, the behaviour of `deduplicate` in
`ttxdb/db.go` (a seen-set walk that keeps the first occurrence of each
element, in order). -/
def dedup {α : Type} [DecidableEq α] : List α → List α
  | [] => []
  | x :: xs => x :: (dedup xs).filter (fun y => y ≠ x)

theorem mem_dedup {α : Type} [DecidableEq α] (a : α) :
    ∀ l : List α, a ∈ dedup l ↔ a ∈ l := by
  intro l
  induction l with
  | nil => simp [dedup]
  | cons x xs ih =>
    simp only [dedup, List.mem_cons, List.mem_filter, ih, decide_eq_true_eq]
    by_cases h : a = x <;> simp [h]

theorem nodup_dedup {α : Type} [DecidableEq α] :
    ∀ l : List α, (dedup l).Nodup := by
  intro l
  induction l with
  | nil => simp [dedup]
  | cons x xs ih =>
    simp only [dedup, List.nodup_cons]
    constructor
    · simp [List.mem_filter]
    · exact List.Nodup.filter _ ih

/-- Modelled from the spec: the token-stream helper `EnrollmentIDs`
(token package, outside the analysed sources) collects the distinct
enrollment ids occurring in a stream; enrollment ids are opaque
*non-empty* strings (§3), and the decomposition algorithm treats the
empty recipient separately (`distinct(outEIDs) ∪ {""}`, §4.E), so the
helper skips empty ids. -/
def enrollmentIDs (l : List IORec) : List String :=
  dedup ((l.filter (fun r => r.enrollmentID ≠ "")).map (fun r => r.enrollmentID))

/-- Modelled from the spec: the token-stream helper `TokenTypes`
collects the distinct token types occurring in a stream (§4.E, "distinct
output types"). -/
def tokenTypesOf (l : List IORec) : List String :=
  dedup (l.map (fun r => r.tokenType))

/-- Modelled from the spec: `ByEnrollmentID(eid).ByType(t).Sum()` — the sum
of the amounts of the stream entries carrying the given enrollment id and
token type (§4.E, "received = Σ amount of outs with (outEID, tokenType)"). -/
def sumByEidType (l : List IORec) (eid t : String) : Int :=
  ((l.filter (fun r => r.enrollmentID = eid ∧ r.tokenType = t)).map (fun r => r.amount)).sum

/-- The inputs of `record` belonging to action `k`
(`inputs.Filter(ActionIndex == actionIndex)` in `TransactionRecords`). -/
def actionIns (rec : AuditRecord) (k : Nat) : List IORec :=
  rec.inputs.filter (fun r => r.actionIndex = k)

/-- The outputs of `record` belonging to action `k`. -/
def actionOuts (rec : AuditRecord) (k : Nat) : List IORec :=
  rec.outputs.filter (fun r => r.actionIndex = k)

/-- Whether action `k` of `record` has neither inputs nor outputs
(the loop-termination test `ins.Count() == 0 && ous.Count() == 0`). -/
def actionEmpty (rec : AuditRecord) (k : Nat) : Bool :=
  (actionIns rec k).isEmpty && (actionOuts rec k).isEmpty

/-- The record `TransactionRecords` emits for one (recipient, type) pair of
an action, or `none` when the summed received amount is not positive. -/
def actionRecord1 (anchor : String) (ts : Nat) (inEIDs : List String)
    (ous : List IORec) (outEID t : String) : Option TransactionRecord :=
  if sumByEidType ous outEID t ≤ 0 then none
  else some
    { txID := anchor
      senderEID := inEIDs.headD ""
      recipientEID := outEID
      tokenType := t
      amount := sumByEidType ous outEID t
      status := .pending
      actionType :=
        if inEIDs.isEmpty then .issue
        else if outEID = "" then .redeem
        else .transfer
      timestamp := ts }

/-- The records `TransactionRecords` emits for one action: the double loop
over `outEIDs ++ [""]` and the distinct output token types, skipping
pairs whose summed received amount is not positive. -/
def actionRecords (anchor : String) (ts : Nat) (inEIDs : List String)
    (ous : List IORec) : List TransactionRecord :=
  ((enrollmentIDs ous) ++ [""]).flatMap (fun outEID =>
    (tokenTypesOf ous).filterMap (actionRecord1 anchor ts inEIDs ous outEID))

/-- The unbounded `for {}` loop of `TransactionRecords`, fuelled.  The loop
breaks at the first action index with no inputs and no outputs; every
action index carried by an input or output is below the fuel supplied by
`transactionRecords`, so the fuel never runs out before the break. -/
def trLoop (rec : AuditRecord) (ts : Nat) : Nat → Nat → Except String (List TransactionRecord)
  | 0, _ => .ok []
  | fuel + 1, k =>
    if actionEmpty rec k then .ok []
    else
      let inEIDs := enrollmentIDs (actionIns rec k)
      if 1 < inEIDs.length then
        .error ("expected at most 1 input enrollment id, got " ++ toString inEIDs.length)
      else
        match trLoop rec ts fuel (k + 1) with
        | .error e => .error e
        | .ok rest => .ok (actionRecords rec.anchor ts inEIDs (actionOuts rec k) ++ rest)

/-- The largest action index named by any input or output of `rec`. -/
def maxActionIndex (rec : AuditRecord) : Nat :=
  (((rec.inputs ++ rec.outputs).map (fun r => r.actionIndex)).foldr max 0)

/-- `TransactionRecords` (`ttxdb/db.go`): decomposes an audit record into
per-action, per-recipient, per-type transaction records, failing when an
action's inputs carry more than one distinct enrollment id. -/
def transactionRecords (rec : AuditRecord) (ts : Nat) : Except String (List TransactionRecord) :=
  trLoop rec ts (maxActionIndex rec + 2) 0

/-- Well-formedness of the action indices of an audit record: action
indices index the actions of the originating token request, numbered
contiguously from 0, so no action below the largest used index is empty. -/
def gapless (rec : AuditRecord) : Prop :=
  ∀ k, k < maxActionIndex rec → actionEmpty rec k = false

instance (rec : AuditRecord) : Decidable (gapless rec) :=
  Nat.decidableBallLT _ _

/-- `Movements` (`ttxdb/db.go`): one movement record per (enrollment id,
token type) pair, with amount `received − sent`.  The source guards the
emission with `if sent == received { continue }`, but `sent` and
`received` are the two distinct `*big.Int` pointers freshly returned by
the two `Sum()` calls, so that pointer comparison never succeeds and no
pair is skipped. -/
def movements (rec : AuditRecord) (ts : Nat) : List MovementRecord :=
  let eIDs := dedup (enrollmentIDs rec.inputs ++ enrollmentIDs rec.outputs)
  let tts := tokenTypesOf rec.outputs
  eIDs.flatMap (fun eID =>
    tts.map (fun t =>
      let received := sumByEidType rec.outputs eID t
      let sent := sumByEidType rec.inputs eID t
      { txID := rec.anchor
        enrollmentID := eID
        amount := received - sent
        tokenType := t
        timestamp := ts
        status := .pending }))

/-! ## Lemmas about the stream helpers -/

theorem mem_enrollmentIDs (eid : String) (l : List IORec) :
    eid ∈ enrollmentIDs l ↔ eid ≠ "" ∧ ∃ r ∈ l, r.enrollmentID = eid := by
  simp only [enrollmentIDs, mem_dedup, List.mem_map, List.mem_filter,
    decide_eq_true_eq]
  constructor
  · rintro ⟨r, ⟨hr, hne⟩, hrfl⟩
    exact ⟨hrfl ▸ hne, r, hr, hrfl⟩
  · rintro ⟨hne, r, hr, hrfl⟩
    exact ⟨r, ⟨hr, hrfl ▸ hne⟩, hrfl⟩

theorem empty_not_mem_enrollmentIDs (l : List IORec) : "" ∉ enrollmentIDs l := by
  simp [mem_enrollmentIDs]

theorem nodup_enrollmentIDs (l : List IORec) : (enrollmentIDs l).Nodup :=
  nodup_dedup _

theorem mem_tokenTypesOf (t : String) (l : List IORec) :
    t ∈ tokenTypesOf l ↔ ∃ r ∈ l, r.tokenType = t := by
  simp [tokenTypesOf, mem_dedup]

theorem nodup_tokenTypesOf (l : List IORec) : (tokenTypesOf l).Nodup :=
  nodup_dedup _

theorem sumByEidType_nonneg (l : List IORec) (eid t : String)
    (h : ∀ r ∈ l, 0 ≤ r.amount) : 0 ≤ sumByEidType l eid t := by
  refine List.sum_nonneg ?_
  intro a ha
  simp only [List.mem_map, List.mem_filter] at ha
  obtain ⟨r, ⟨hr, -⟩, hrfl⟩ := ha
  exact hrfl ▸ h r hr

theorem sumByEidType_eq_zero_of_eid (l : List IORec) (eid t : String)
    (h : ∀ r ∈ l, r.enrollmentID ≠ eid) : sumByEidType l eid t = 0 := by
  unfold sumByEidType
  rw [List.filter_eq_nil_iff.mpr ?_]
  · rfl
  · intro r hr
    simp only [decide_eq_true_eq]
    exact fun hc => h r hr hc.1

theorem sumByEidType_eq_zero_of_type (l : List IORec) (eid t : String)
    (h : ∀ r ∈ l, r.tokenType ≠ t) : sumByEidType l eid t = 0 := by
  unfold sumByEidType
  rw [List.filter_eq_nil_iff.mpr ?_]
  · rfl
  · intro r hr
    simp only [decide_eq_true_eq]
    exact fun hc => h r hr hc.2

/-! ## The per-pair sum of emitted transaction records -/

/-- The sum of the amounts of the transaction records addressed to a given
(recipient enrollment id, token type) pair. -/
def recordSum (txs : List TransactionRecord) (eid t : String) : Int :=
  ((txs.filter (fun r => r.recipientEID = eid ∧ r.tokenType = t)).map
    (fun r => r.amount)).sum

theorem recordSum_nil (eid t : String) : recordSum [] eid t = 0 := rfl

theorem recordSum_cons (r : TransactionRecord) (txs : List TransactionRecord)
    (eid t : String) :
    recordSum (r :: txs) eid t =
      (if r.recipientEID = eid ∧ r.tokenType = t then r.amount else 0)
        + recordSum txs eid t := by
  simp only [recordSum, List.filter_cons]
  split
  · next h =>
    rw [if_pos (by simpa using h)]
    simp
  · next h =>
    rw [if_neg (by simpa using h)]
    simp

theorem recordSum_append (a b : List TransactionRecord) (eid t : String) :
    recordSum (a ++ b) eid t = recordSum a eid t + recordSum b eid t := by
  simp [recordSum, List.filter_append]

theorem recordSum_eq_zero (txs : List TransactionRecord) (eid t : String)
    (h : ∀ r ∈ txs, ¬(r.recipientEID = eid ∧ r.tokenType = t)) :
    recordSum txs eid t = 0 := by
  unfold recordSum
  rw [List.filter_eq_nil_iff.mpr ?_]
  · rfl
  · intro r hr
    simp only [decide_eq_true_eq]
    exact h r hr

theorem recordSum_flatMap (L : List String) (f : String → List TransactionRecord)
    (eid t : String) :
    recordSum (L.flatMap f) eid t = (L.map (fun e => recordSum (f e) eid t)).sum := by
  induction L with
  | nil => simp [recordSum]
  | cons x xs ih => simp [List.flatMap_cons, recordSum_append, ih]

/-- Everything `actionRecord1` produces: the record's fields in terms of the
pair it was produced for. -/
theorem actionRecord1_eq_some (anchor : String) (ts : Nat) (inEIDs : List String)
    (ous : List IORec) (outEID t : String) (r : TransactionRecord)
    (h : actionRecord1 anchor ts inEIDs ous outEID t = some r) :
    r.txID = anchor ∧ r.senderEID = inEIDs.headD "" ∧ r.recipientEID = outEID ∧
      r.tokenType = t ∧ r.amount = sumByEidType ous outEID t ∧ 0 < r.amount ∧
      r.status = .pending ∧ r.timestamp = ts ∧
      r.actionType = (if inEIDs.isEmpty then ActionType.issue
        else if outEID = "" then ActionType.redeem else ActionType.transfer) := by
  by_cases hle : sumByEidType ous outEID t ≤ 0
  · rw [actionRecord1, if_pos hle] at h
    exact absurd h (by simp)
  · rw [actionRecord1, if_neg hle] at h
    obtain rfl := Option.some_injective _ h.symm
    exact ⟨rfl, rfl, rfl, rfl, rfl, not_le.mp hle, rfl, rfl, rfl⟩

/-- The inner type loop of `actionRecords`, evaluated at the recipient it
iterates for. -/
theorem recordSum_filterMap_self (anchor : String) (ts : Nat)
    (inEIDs : List String) (ous : List IORec) (eid t : String)
    (L : List String) (hnd : L.Nodup) :
    recordSum (L.filterMap (actionRecord1 anchor ts inEIDs ous eid)) eid t =
      if t ∈ L ∧ ¬ sumByEidType ous eid t ≤ 0 then sumByEidType ous eid t else 0 := by
  induction L with
  | nil => simp [recordSum]
  | cons x xs ih =>
    have hnd' : xs.Nodup := hnd.of_cons
    rw [List.filterMap_cons]
    by_cases hx : x = t
    · subst hx
      have hxs : x ∉ xs := (List.nodup_cons.mp hnd).1
      have hrest : recordSum (xs.filterMap (actionRecord1 anchor ts inEIDs ous eid)) eid x = 0 := by
        rw [ih hnd']
        simp [hxs]
      cases hcase : actionRecord1 anchor ts inEIDs ous eid x with
      | none =>
        have hle : sumByEidType ous eid x ≤ 0 := by
          by_contra hpos
          rw [actionRecord1, if_neg hpos] at hcase
          exact absurd hcase (by simp)
        simp [hrest, hle]
      | some r =>
        obtain ⟨-, -, hrec, htyp, hamt, -, -, -, -⟩ :=
          actionRecord1_eq_some anchor ts inEIDs ous eid x r hcase
        have hpos : ¬ sumByEidType ous eid x ≤ 0 := by
          intro hle
          rw [actionRecord1, if_pos hle] at hcase
          exact absurd hcase (by simp)
        rw [recordSum_cons, if_pos ⟨hrec, htyp⟩, hrest, hamt]
        simp [hpos]
    · have hmem : (t ∈ x :: xs) = (t ∈ xs) := by
        refine propext ⟨fun h => ?_, fun h => List.mem_cons_of_mem _ h⟩
        rcases List.mem_cons.mp h with h1 | h1
        · exact absurd h1.symm hx
        · exact h1
      cases hcase : actionRecord1 anchor ts inEIDs ous eid x with
      | none =>
        rw [ih hnd']
        simp only [hmem]
      | some r =>
        obtain ⟨-, -, -, htyp, -, -, -, -, -⟩ :=
          actionRecord1_eq_some anchor ts inEIDs ous eid x r hcase
        rw [recordSum_cons, if_neg (by rintro ⟨-, h2⟩; exact hx (htyp.symm.trans h2)),
          ih hnd']
        simp only [hmem, zero_add]

/-- The inner type loop of `actionRecords`, evaluated at a recipient other
than the one it iterates for: contributes nothing. -/
theorem recordSum_filterMap_other (anchor : String) (ts : Nat)
    (inEIDs : List String) (ous : List IORec) (e eid t : String)
    (hne : e ≠ eid) (L : List String) :
    recordSum (L.filterMap (actionRecord1 anchor ts inEIDs ous e)) eid t = 0 := by
  refine recordSum_eq_zero _ _ _ ?_
  intro r hr
  obtain ⟨t', -, hsome⟩ := List.mem_filterMap.mp hr
  obtain ⟨-, -, hrec, -, -, -, -, -, -⟩ :=
    actionRecord1_eq_some anchor ts inEIDs ous e t' r hsome
  rintro ⟨h1, -⟩
  exact hne (hrec ▸ h1)

/-- Summing a map whose entries vanish except possibly at one point of a
duplicate-free list. -/
theorem sum_map_single (L : List String) (hnd : L.Nodup) (f : String → Int)
    (eid : String) (h0 : ∀ e ∈ L, e ≠ eid → f e = 0) :
    (L.map f).sum = if eid ∈ L then f eid else 0 := by
  induction L with
  | nil => simp
  | cons x xs ih =>
    have hnd' : xs.Nodup := hnd.of_cons
    by_cases hx : x = eid
    · subst hx
      have hxs : x ∉ xs := (List.nodup_cons.mp hnd).1
      have : (xs.map f).sum = 0 := by
        rw [ih hnd' (fun e he hne => h0 e (List.mem_cons_of_mem _ he) hne)]
        simp [hxs]
      simp [this]
    · have hx0 : f x = 0 := h0 x (List.mem_cons_self _ _) hx
      rw [List.map_cons, List.sum_cons, hx0,
        ih hnd' (fun e he hne => h0 e (List.mem_cons_of_mem _ he) hne)]
      have hmem : (eid ∈ x :: xs) = (eid ∈ xs) := by
        refine propext ⟨fun h => ?_, fun h => List.mem_cons_of_mem _ h⟩
        rcases List.mem_cons.mp h with h1 | h1
        · exact absurd h1.symm hx
        · exact h1
      simp only [hmem, zero_add]

/-- Per-action partition: within one action, the amounts of the emitted
records addressed to a (recipient, type) pair sum to exactly the action's
output value for that pair (non-negative amounts). -/
theorem recordSum_actionRecords (anchor : String) (ts : Nat)
    (inEIDs : List String) (ous : List IORec) (eid t : String)
    (hamt : ∀ r ∈ ous, 0 ≤ r.amount) :
    recordSum (actionRecords anchor ts inEIDs ous) eid t = sumByEidType ous eid t := by
  have hnodup : ((enrollmentIDs ous) ++ [""]).Nodup := by
    refine List.Nodup.append (nodup_enrollmentIDs ous) (List.nodup_singleton _) ?_
    intro e he h1
    obtain rfl := List.mem_singleton.mp h1
    exact empty_not_mem_enrollmentIDs ous he
  have hS := sumByEidType_nonneg ous eid t hamt
  rw [actionRecords, recordSum_flatMap,
    sum_map_single _ hnodup _ eid (fun e _ hne =>
      recordSum_filterMap_other anchor ts inEIDs ous e eid t hne _)]
  by_cases hmem : eid ∈ enrollmentIDs ous ++ [""]
  · rw [if_pos hmem,
      recordSum_filterMap_self anchor ts inEIDs ous eid t _ (nodup_tokenTypesOf ous)]
    by_cases htt : t ∈ tokenTypesOf ous
    · by_cases hle : sumByEidType ous eid t ≤ 0
      · rw [if_neg (by simp [hle])]
        omega
      · rw [if_pos ⟨htt, hle⟩]
    · rw [if_neg (by simp [htt]),
        sumByEidType_eq_zero_of_type ous eid t
          (fun r hr hc => htt ((mem_tokenTypesOf t ous).mpr ⟨r, hr, hc⟩))]
  · rw [if_neg hmem]
    have heid : eid ≠ "" := by
      rintro rfl
      exact hmem (by simp)
    rw [sumByEidType_eq_zero_of_eid ous eid t ?_]
    intro r hr hc
    exact hmem (List.mem_append_left _
      ((mem_enrollmentIDs eid ous).mpr ⟨heid, r, hr, hc⟩))

/-! ## Lemmas about the action loop -/

theorem le_foldr_max (l : List Nat) (x : Nat) (h : x ∈ l) : x ≤ l.foldr max 0 := by
  induction l with
  | nil => cases h
  | cons y ys ih =>
    rcases List.mem_cons.mp h with rfl | h1
    · exact Nat.le_max_left _ _
    · exact Nat.le_trans (ih h1) (Nat.le_max_right _ _)

theorem actionIndex_le_max (rec : AuditRecord) (r : IORec)
    (h : r ∈ rec.inputs ++ rec.outputs) : r.actionIndex ≤ maxActionIndex rec :=
  le_foldr_max _ _ (List.mem_map.mpr ⟨r, h, rfl⟩)

theorem actionEmpty_iff (rec : AuditRecord) (k : Nat) :
    actionEmpty rec k = true ↔
      (∀ r ∈ rec.inputs, r.actionIndex ≠ k) ∧ (∀ r ∈ rec.outputs, r.actionIndex ≠ k) := by
  rw [actionEmpty, Bool.and_eq_true, List.isEmpty_iff, List.isEmpty_iff,
    actionIns, actionOuts, List.filter_eq_nil_iff, List.filter_eq_nil_iff]
  simp

/-- Under `gapless`, once the action loop meets an empty action index every
input and output lies strictly below it. -/
theorem gapless_below (rec : AuditRecord) (hgap : gapless rec) (k : Nat)
    (hempty : actionEmpty rec k = true) :
    ∀ r ∈ rec.inputs ++ rec.outputs, r.actionIndex < k := by
  intro r hr
  by_contra hlt
  have hk : k ≤ r.actionIndex := Nat.le_of_not_lt hlt
  have hmax : r.actionIndex ≤ maxActionIndex rec := actionIndex_le_max rec r hr
  rcases Nat.lt_or_ge k (maxActionIndex rec) with h1 | h1
  · exact absurd hempty (by simp [hgap k h1])
  · have hidx : r.actionIndex = k := Nat.le_antisymm (Nat.le_trans hmax h1) hk
    obtain ⟨hin, hout⟩ := (actionEmpty_iff rec k).mp hempty
    rcases List.mem_append.mp hr with h2 | h2
    · exact hin r h2 hidx
    · exact hout r h2 hidx

/-- Output value of a (recipient, type) pair over the actions from index `k`
upward. -/
def sumFromIdx (l : List IORec) (k : Nat) (eid t : String) : Int :=
  ((l.filter (fun r => k ≤ r.actionIndex ∧ r.enrollmentID = eid ∧ r.tokenType = t)).map
    (fun r => r.amount)).sum

theorem sumFromIdx_zero (l : List IORec) (eid t : String) :
    sumFromIdx l 0 eid t = sumByEidType l eid t := by
  unfold sumFromIdx sumByEidType
  congr 2
  apply List.filter_congr
  intro r _
  simp

theorem sumFromIdx_eq_zero (l : List IORec) (k : Nat) (eid t : String)
    (h : ∀ r ∈ l, r.actionIndex < k) : sumFromIdx l k eid t = 0 := by
  unfold sumFromIdx
  rw [List.filter_eq_nil_iff.mpr ?_]
  · rfl
  · intro r hr
    simp only [decide_eq_true_eq]
    intro hc
    exact absurd (h r hr) (Nat.not_lt.mpr hc.1)

theorem sumFromIdx_split (l : List IORec) (k : Nat) (eid t : String) :
    sumFromIdx l k eid t =
      sumByEidType (l.filter (fun r => r.actionIndex = k)) eid t
        + sumFromIdx l (k + 1) eid t := by
  induction l with
  | nil => simp [sumFromIdx, sumByEidType]
  | cons r l ih =>
    by_cases hpair : r.enrollmentID = eid ∧ r.tokenType = t
    · rcases Nat.lt_trichotomy r.actionIndex k with hk | hk | hk
      · have h1 : ¬ (k ≤ r.actionIndex ∧ r.enrollmentID = eid ∧ r.tokenType = t) := by
          intro hc
          exact absurd hk (Nat.not_lt.mpr hc.1)
        have h2 : r.actionIndex ≠ k := Nat.ne_of_lt hk
        have h3 : ¬ (k + 1 ≤ r.actionIndex ∧ r.enrollmentID = eid ∧ r.tokenType = t) := by
          intro hc
          omega
        simp only [sumFromIdx, List.filter_cons, decide_eq_true_eq] at *
        rw [if_neg (by simpa using h1), if_neg (by simpa using h2),
          if_neg (by simpa using h3)] at *
        exact ih
      · have h1 : (k ≤ r.actionIndex ∧ r.enrollmentID = eid ∧ r.tokenType = t) :=
          ⟨Nat.le_of_eq hk.symm, hpair⟩
        have h3 : ¬ (k + 1 ≤ r.actionIndex ∧ r.enrollmentID = eid ∧ r.tokenType = t) := by
          intro hc
          omega
        simp only [sumFromIdx, sumByEidType, List.filter_cons, decide_eq_true_eq] at *
        rw [if_pos (by simpa using h1), if_pos (by simpa using hk),
          List.filter_cons, if_pos (by simpa using hpair),
          if_neg (by simpa using h3)] at *
        simp only [List.map_cons, List.sum_cons]
        rw [ih]
        ring
      · have h1 : (k ≤ r.actionIndex ∧ r.enrollmentID = eid ∧ r.tokenType = t) :=
          ⟨Nat.le_of_lt hk, hpair⟩
        have h2 : r.actionIndex ≠ k := (Nat.ne_of_lt hk).symm
        have h3 : (k + 1 ≤ r.actionIndex ∧ r.enrollmentID = eid ∧ r.tokenType = t) :=
          ⟨hk, hpair⟩
        simp only [sumFromIdx, List.filter_cons, decide_eq_true_eq] at *
        rw [if_pos (by simpa using h1), if_neg (by simpa using h2),
          if_pos (by simpa using h3)] at *
        simp only [List.map_cons, List.sum_cons]
        rw [ih]
        ring
    · have h1 : ¬ (k ≤ r.actionIndex ∧ r.enrollmentID = eid ∧ r.tokenType = t) :=
        fun hc => hpair hc.2
      have h3 : ¬ (k + 1 ≤ r.actionIndex ∧ r.enrollmentID = eid ∧ r.tokenType = t) :=
        fun hc => hpair hc.2
      by_cases h2 : r.actionIndex = k
      · simp only [sumFromIdx, sumByEidType, List.filter_cons, decide_eq_true_eq] at *
        rw [if_neg (by simpa using h1), if_pos (by simpa using h2),
          List.filter_cons, if_neg (by simpa using hpair),
          if_neg (by simpa using h3)] at *
        exact ih
      · simp only [sumFromIdx, List.filter_cons, decide_eq_true_eq] at *
        rw [if_neg (by simpa using h1), if_neg (by simpa using h2),
          if_neg (by simpa using h3)] at *
        exact ih

/-- The action loop, summed per (recipient, type) pair: from action index
`k` on, the emitted amounts for the pair add up to the output value of the
pair over those actions. -/
theorem trLoop_recordSum (rec : AuditRecord) (ts : Nat) (eid t : String)
    (hamt : ∀ r ∈ rec.outputs, 0 ≤ r.amount) (hgap : gapless rec) :
    ∀ fuel k txs, maxActionIndex rec + 2 ≤ k + fuel →
      trLoop rec ts fuel k = .ok txs →
      recordSum txs eid t = sumFromIdx rec.outputs k eid t := by
  intro fuel
  induction fuel with
  | zero =>
    intro k txs hle hok
    obtain rfl : ([] : List TransactionRecord) = txs := by
      simpa [trLoop] using hok
    rw [recordSum_nil, sumFromIdx_eq_zero]
    intro r hr
    have := actionIndex_le_max rec r (List.mem_append_right _ hr)
    omega
  | succ fuel ih =>
    intro k txs hle hok
    rw [trLoop] at hok
    by_cases hempty : actionEmpty rec k = true
    · rw [if_pos hempty] at hok
      obtain rfl : ([] : List TransactionRecord) = txs := by simpa using hok
      rw [recordSum_nil, sumFromIdx_eq_zero]
      intro r hr
      exact gapless_below rec hgap k hempty r (List.mem_append_right _ hr)
    · rw [if_neg hempty] at hok
      by_cases hlen : 1 < (enrollmentIDs (actionIns rec k)).length
      · rw [if_pos hlen] at hok
        exact absurd hok (by simp)
      · rw [if_neg hlen] at hok
        cases hrest : trLoop rec ts fuel (k + 1) with
        | error e => rw [hrest] at hok; exact absurd hok (by simp)
        | ok rest =>
          rw [hrest] at hok
          obtain rfl : actionRecords rec.anchor ts (enrollmentIDs (actionIns rec k))
              (actionOuts rec k) ++ rest = txs := by simpa using hok
          have hamt' : ∀ r ∈ actionOuts rec k, 0 ≤ r.amount := by
            intro r hr
            exact hamt r (List.mem_of_mem_filter hr)
          rw [recordSum_append, recordSum_actionRecords _ _ _ _ _ _ hamt',
            ih (k + 1) rest (by omega) hrest, sumFromIdx_split rec.outputs k eid t]
          rfl

/-- **C1**: the per-pair partition property of `TransactionRecords`.
For a well-formed audit record (non-negative output amounts, contiguous
action indices), whenever the decomposition succeeds, the amounts of the
emitted transaction records addressed to a given (recipient enrollment id,
token type) pair sum to exactly the total amount of the record's outputs
tagged with that enrollment id and type; summing over the finitely many
pairs occurring in an action, the emitted amounts partition each action's
total output value. -/
theorem transactionRecords_partition (rec : AuditRecord) (ts : Nat)
    (eid t : String) (txs : List TransactionRecord)
    (hamt : ∀ r ∈ rec.outputs, 0 ≤ r.amount) (hgap : gapless rec)
    (hok : transactionRecords rec ts = .ok txs) :
    recordSum txs eid t = sumByEidType rec.outputs eid t := by
  rw [← sumFromIdx_zero]
  exact trLoop_recordSum rec ts eid t hamt hgap _ 0 txs (by omega) hok

/-- Concrete transfer decomposition (spec §8 scenario 2). -/
def transferRec : AuditRecord where
  anchor := "t1"
  inputs := [⟨0, "alice", "USD", 100⟩]
  outputs := [⟨0, "bob", "USD", 70⟩, ⟨0, "alice", "USD", 30⟩]

/-- Witness for `transactionRecords_partition` at the concrete transfer
record: the amount received by "bob" in "USD" equals the output value
tagged ("bob", "USD"). -/
theorem transactionRecords_partition_witness :
    recordSum
      [{ txID := "t1", senderEID := "alice", recipientEID := "bob",
         tokenType := "USD", amount := 70, status := .pending,
         actionType := .transfer, timestamp := 7 },
       { txID := "t1", senderEID := "alice", recipientEID := "alice",
         tokenType := "USD", amount := 30, status := .pending,
         actionType := .transfer, timestamp := 7 }] "bob" "USD"
      = sumByEidType transferRec.outputs "bob" "USD" :=
  transactionRecords_partition transferRec 7 "bob" "USD" _
    (by decide) (by decide) rfl

/-- Fields of any record emitted for one action: pending status, positive
amount, sender = the action's single input enrollment id (or empty), and
the issue/redeem/transfer classification. -/
theorem mem_actionRecords (anchor : String) (ts : Nat) (inEIDs : List String)
    (ous : List IORec) (r : TransactionRecord)
    (h : r ∈ actionRecords anchor ts inEIDs ous) :
    r.status = .pending ∧ 0 < r.amount ∧ r.senderEID = inEIDs.headD "" ∧
      r.actionType = (if inEIDs.isEmpty then ActionType.issue
        else if r.recipientEID = "" then ActionType.redeem
        else ActionType.transfer) := by
  obtain ⟨e, -, hin⟩ := List.mem_flatMap.mp h
  obtain ⟨t', -, hsome⟩ := List.mem_filterMap.mp hin
  obtain ⟨-, hsend, hrec, -, -, hpos, hstat, -, hact⟩ :=
    actionRecord1_eq_some anchor ts inEIDs ous e t' r hsome
  rw [← hrec] at hact
  exact ⟨hstat, hpos, hsend, hact⟩

/-- Every record returned by the action loop comes from some non-empty
action whose inputs carry at most one distinct enrollment id. -/
theorem trLoop_mem (rec : AuditRecord) (ts : Nat) :
    ∀ fuel k txs, trLoop rec ts fuel k = .ok txs → ∀ r ∈ txs,
      ∃ j, actionEmpty rec j = false ∧
        (enrollmentIDs (actionIns rec j)).length ≤ 1 ∧
        r ∈ actionRecords rec.anchor ts (enrollmentIDs (actionIns rec j)) (actionOuts rec j) := by
  intro fuel
  induction fuel with
  | zero =>
    intro k txs hok r hr
    obtain rfl : ([] : List TransactionRecord) = txs := by simpa [trLoop] using hok
    cases hr
  | succ fuel ih =>
    intro k txs hok r hr
    rw [trLoop] at hok
    by_cases hempty : actionEmpty rec k = true
    · rw [if_pos hempty] at hok
      obtain rfl : ([] : List TransactionRecord) = txs := by simpa using hok
      cases hr
    · rw [if_neg hempty] at hok
      by_cases hlen : 1 < (enrollmentIDs (actionIns rec k)).length
      · rw [if_pos hlen] at hok
        exact absurd hok (by simp)
      · rw [if_neg hlen] at hok
        cases hrest : trLoop rec ts fuel (k + 1) with
        | error e => rw [hrest] at hok; exact absurd hok (by simp)
        | ok rest =>
          rw [hrest] at hok
          obtain rfl : actionRecords rec.anchor ts (enrollmentIDs (actionIns rec k))
              (actionOuts rec k) ++ rest = txs := by simpa using hok
          rcases List.mem_append.mp hr with h1 | h1
          · exact ⟨k, by simpa using hempty, Nat.le_of_not_lt hlen, h1⟩
          · exact ih (k + 1) rest hrest r h1

/-- **C2**: classification of the emitted records.  Every record produced by
a successful `TransactionRecords` run has status pending and strictly
positive amount, and stems from an action with at most one distinct input
enrollment id whose classification follows the rule: issue when the action
has no input enrollment ids, redeem when it has one and the recipient
enrollment id is empty, transfer otherwise. -/
theorem transactionRecords_classification (rec : AuditRecord) (ts : Nat)
    (txs : List TransactionRecord) (hok : transactionRecords rec ts = .ok txs) :
    ∀ r ∈ txs, r.status = .pending ∧ 0 < r.amount ∧
      ∃ j, actionEmpty rec j = false ∧
        (enrollmentIDs (actionIns rec j)).length ≤ 1 ∧
        r.senderEID = (enrollmentIDs (actionIns rec j)).headD "" ∧
        r.actionType = (if (enrollmentIDs (actionIns rec j)).isEmpty then ActionType.issue
          else if r.recipientEID = "" then ActionType.redeem
          else ActionType.transfer) := by
  intro r hr
  obtain ⟨j, hne, hlen, hmem⟩ := trLoop_mem rec ts _ 0 txs hok r hr
  obtain ⟨hstat, hpos, hsend, hact⟩ := mem_actionRecords _ _ _ _ r hmem
  exact ⟨hstat, hpos, j, hne, hlen, hsend, hact⟩

/-- Concrete redeem decomposition: one input from "alice" and one burn
output with empty enrollment id. -/
def redeemRec : AuditRecord where
  anchor := "t2"
  inputs := [⟨0, "alice", "USD", 50⟩]
  outputs := [⟨0, "", "USD", 50⟩]

/-- The single record `TransactionRecords` emits for `redeemRec`. -/
def redeemOut : TransactionRecord where
  txID := "t2"
  senderEID := "alice"
  recipientEID := ""
  tokenType := "USD"
  amount := 50
  status := .pending
  actionType := .redeem
  timestamp := 3

/-- Witness for `transactionRecords_classification` at the concrete redeem
record: its single emitted record is pending, positive, sent by "alice"
and classified as a redeem. -/
theorem transactionRecords_classification_witness :
    redeemOut.status = TxStatus.pending ∧ 0 < redeemOut.amount ∧
      ∃ j, actionEmpty redeemRec j = false ∧
        (enrollmentIDs (actionIns redeemRec j)).length ≤ 1 ∧
        redeemOut.senderEID = (enrollmentIDs (actionIns redeemRec j)).headD "" ∧
        redeemOut.actionType =
          (if (enrollmentIDs (actionIns redeemRec j)).isEmpty then ActionType.issue
            else if redeemOut.recipientEID = "" then ActionType.redeem
            else ActionType.transfer) :=
  transactionRecords_classification redeemRec 3 [redeemOut] rfl redeemOut (by decide)

/-- The action loop succeeds whenever every action has at most one distinct
input enrollment id. -/
theorem trLoop_ok_of_single (rec : AuditRecord) (ts : Nat)
    (hall : ∀ j, (enrollmentIDs (actionIns rec j)).length ≤ 1) :
    ∀ fuel k, ∃ txs, trLoop rec ts fuel k = .ok txs := by
  intro fuel
  induction fuel with
  | zero => exact fun k => ⟨[], rfl⟩
  | succ fuel ih =>
    intro k
    by_cases hempty : actionEmpty rec k = true
    · exact ⟨[], by rw [trLoop, if_pos hempty]⟩
    · obtain ⟨rest, hrest⟩ := ih (k + 1)
      exact ⟨actionRecords rec.anchor ts (enrollmentIDs (actionIns rec k))
          (actionOuts rec k) ++ rest,
        by rw [trLoop, if_neg hempty, if_neg (Nat.not_lt.mpr (hall k)), hrest]⟩

/-- If some reached action carries at least two distinct input enrollment
ids, the action loop fails. -/
theorem trLoop_error_of_multi (rec : AuditRecord) (ts : Nat) (hgap : gapless rec)
    (k : Nat) (hk : 2 ≤ (enrollmentIDs (actionIns rec k)).length) :
    ∀ fuel j, j ≤ k → k < j + fuel → ∃ e, trLoop rec ts fuel j = .error e := by
  have hinp : ∃ r ∈ rec.inputs, r.actionIndex = k := by
    have hne : enrollmentIDs (actionIns rec k) ≠ [] := by
      intro h0
      rw [h0] at hk
      exact absurd hk (by simp)
    obtain ⟨s, hs⟩ := List.exists_mem_of_ne_nil _ hne
    obtain ⟨-, r, hr, -⟩ := (mem_enrollmentIDs s _).mp hs
    have hr' : r ∈ rec.inputs.filter (fun r => decide (r.actionIndex = k)) := hr
    refine ⟨r, List.mem_of_mem_filter hr', ?_⟩
    simpa using List.of_mem_filter hr'
  intro fuel
  induction fuel with
  | zero => omega
  | succ fuel ih =>
    intro j hjk hlt
    by_cases hempty : actionEmpty rec j = true
    · obtain ⟨r, hr, hidx⟩ := hinp
      have := gapless_below rec hgap j hempty r (List.mem_append_left _ hr)
      omega
    · by_cases hlen : 1 < (enrollmentIDs (actionIns rec j)).length
      · exact ⟨_, by rw [trLoop, if_neg hempty, if_pos hlen]⟩
      · have hne : j ≠ k := by
          rintro rfl
          omega
        obtain ⟨e, he⟩ := ih (j + 1) (by omega) (by omega)
        exact ⟨e, by rw [trLoop, if_neg hempty, if_neg hlen, he]⟩

/-- **C8**: for a well-formed (gapless) audit record, `TransactionRecords`
fails with the invalid-audit error exactly when some action's inputs carry
more than one distinct enrollment id: if such an action exists the call
returns an error (and hence no records), and if every action has at most
one distinct input enrollment id the call returns a record list. -/
theorem transactionRecords_invalidAudit (rec : AuditRecord) (ts : Nat)
    (hgap : gapless rec) :
    ((∃ k, 2 ≤ (enrollmentIDs (actionIns rec k)).length) →
        ∃ e, transactionRecords rec ts = .error e) ∧
      ((∀ k, (enrollmentIDs (actionIns rec k)).length ≤ 1) →
        ∃ txs, transactionRecords rec ts = .ok txs) := by
  constructor
  · rintro ⟨k, hk⟩
    have hkmax : k ≤ maxActionIndex rec := by
      have hne : enrollmentIDs (actionIns rec k) ≠ [] := by
        intro h0
        rw [h0] at hk
        exact absurd hk (by simp)
      obtain ⟨s, hs⟩ := List.exists_mem_of_ne_nil _ hne
      obtain ⟨-, r, hr, -⟩ := (mem_enrollmentIDs s _).mp hs
      have hr' : r ∈ rec.inputs.filter (fun r => decide (r.actionIndex = k)) := hr
      have hidx : r.actionIndex = k := by
        simpa using List.of_mem_filter hr'
      have := actionIndex_le_max rec r
        (List.mem_append_left _ (List.mem_of_mem_filter hr'))
      omega
    exact trLoop_error_of_multi rec ts hgap k hk _ 0 (Nat.zero_le _) (by omega)
  · intro hall
    exact trLoop_ok_of_single rec ts hall _ 0

/-- Concrete record whose single action has two distinct input enrollment
ids. -/
def twoSenderRec : AuditRecord where
  anchor := "t4"
  inputs := [⟨0, "alice", "USD", 1⟩, ⟨0, "bob", "USD", 1⟩]
  outputs := []

/-- Witness for `transactionRecords_invalidAudit`: the two-sender record is
rejected, while the single-sender transfer record is decomposed. -/
theorem transactionRecords_invalidAudit_witness :
    (∃ e, transactionRecords twoSenderRec 0 = .error e) ∧
      ∃ txs, transactionRecords transferRec 0 = .ok txs :=
  ⟨(transactionRecords_invalidAudit twoSenderRec 0 (by decide)).1 ⟨0, by decide⟩,
    (transactionRecords_invalidAudit transferRec 0 (by decide)).2 (by
      intro k
      cases k with
      | zero => decide
      | succ n =>
        have : actionIns transferRec (n + 1) = [] := by
          simp [actionIns, transferRec]
        rw [this]
        decide)⟩

/-! ## The SQL-backed token store: `TokenDB.GetTokens` -/

/-- `token.ID`: transaction id and output index. -/
structure TokenID where
  txId : String
  idx : Nat
deriving DecidableEq, Repr

/-- One row of the TOKENS table (the columns `GetTokens` touches). -/
structure TokenRow where
  txId : String
  idx : Nat
  ownerRaw : List Nat
  tokenType : String
  quantity : String
  owner : Bool
  isDeleted : Bool
deriving DecidableEq, Repr

/-- `token.Token`: the value `GetTokens` builds from a scanned row. -/
structure Tok where
  ownerRaw : List Nat
  tokenType : String
  quantity : String
deriving DecidableEq, Repr

/-- The primary key of a row, as a token id. -/
def rowId (r : TokenRow) : TokenID := ⟨r.txId, r.idx⟩

/-- `ids[i].Equal(id)`: structural comparison of a token id against a
scanned row's key. -/
def rowMatches (i : TokenID) (r : TokenRow) : Bool :=
  i.txId = r.txId && i.idx = r.idx

theorem rowMatches_iff (i : TokenID) (r : TokenRow) :
    rowMatches i r = true ↔ i = rowId r := by
  cases i with
  | mk a b => simp [rowMatches, rowId, TokenID.mk.injEq]

/-- The WHERE clause of `GetTokens`: the row's key is one of the requested
ids, the row is not deleted, and the node owns it. -/
def liveOwnedFor (inputs : List TokenID) (r : TokenRow) : Bool :=
  inputs.any (fun i => rowMatches i r) && !r.isDeleted && r.owner

/-- The rows the `GetTokens` query returns (in table order; the code
repositions them, so the order is irrelevant). -/
def getTokensRows (db : List TokenRow) (inputs : List TokenID) : List TokenRow :=
  db.filter (liveOwnedFor inputs)

def mkTok (r : TokenRow) : Tok :=
  ⟨r.ownerRaw, r.tokenType, r.quantity⟩

/-- The NotFound message of the token store. -/
def notFoundMsg (i : TokenID) : String :=
  "token not found for key [" ++ i.txId ++ ":" ++ toString i.idx ++ "]"

/-- The row scan of `GetTokens`: each row fills the first input slot whose
id equals the row's key (the inner loop breaks at the first match) and
bumps the counter. -/
def getTokensLoop (inputs : List TokenID) :
    List TokenRow → List (Option Tok) → Nat → Except String (List (Option Tok) × Nat)
  | [], slots, counter => .ok (slots, counter)
  | r :: rs, slots, counter =>
    match inputs.findIdx? (fun i => rowMatches i r) with
    | none => .error ("retrieved wrong token [" ++ r.txId ++ "]")
    | some j => getTokensLoop inputs rs (slots.set j (some (mkTok r))) (counter + 1)

/-- `TokenDB.GetTokens`: selects the live owned rows for the requested ids,
repositions each scanned row at the first matching input slot, and fails
with the NotFound message of the first unfilled slot when the counter does
not reach the number of requested ids.  (The unreachable `panic` of the
source becomes the final error case.) -/
def getTokens (db : List TokenRow) (inputs : List TokenID) :
    Except String (List (Option Tok)) :=
  if inputs.isEmpty then .ok []
  else
    match getTokensLoop inputs (getTokensRows db inputs)
        (List.replicate inputs.length none) 0 with
    | .error e => .error e
    | .ok (slots, counter) =>
      if counter = 0 then .error (notFoundMsg (inputs.headD ⟨"", 0⟩))
      else if counter ≠ inputs.length then
        match slots.findIdx? (fun s => s.isNone) with
        | some j => .error (notFoundMsg (inputs.getD j ⟨"", 0⟩))
        | none => .error "programming error: should not reach this point"
      else .ok slots

/-! ### Counting lemmas for the row scan -/

theorem countP_le_countP_set_add_one {α : Type} (p : α → Bool) :
    ∀ (l : List α) (j : Nat) (a : α), l.countP p ≤ (l.set j a).countP p + 1 := by
  intro l
  induction l with
  | nil => intro j a; simp
  | cons x xs ih =>
    intro j a
    cases j with
    | zero =>
      rw [List.set_cons_zero, List.countP_cons, List.countP_cons]
      have h1 : (if p x then 1 else 0) ≤ 1 := by split <;> omega
      have h2 : 0 ≤ (if p a then 1 else 0) := by split <;> omega
      omega
    | succ n =>
      rw [List.set_cons_succ, List.countP_cons, List.countP_cons]
      have := ih n a
      omega

/-- The row scan succeeds on rows that all match some input, bumping the
counter once per row and filling at most one slot per row. -/
theorem getTokensLoop_ok (inputs : List TokenID) :
    ∀ (rs : List TokenRow) (slots : List (Option Tok)) (counter : Nat),
      (∀ r ∈ rs, inputs.any (fun i => rowMatches i r) = true) →
      ∃ slots', getTokensLoop inputs rs slots counter = .ok (slots', counter + rs.length) ∧
        slots'.length = slots.length ∧
        slots.countP (fun s => s.isNone) ≤ slots'.countP (fun s => s.isNone) + rs.length := by
  intro rs
  induction rs with
  | nil =>
    intro slots counter _
    exact ⟨slots, by simp [getTokensLoop], rfl, by omega⟩
  | cons r rs ih =>
    intro slots counter hall
    have hany : inputs.any (fun i => rowMatches i r) = true :=
      hall r (List.mem_cons_self _ _)
    have hsome : (inputs.findIdx? (fun i => rowMatches i r)).isSome = true := by
      rw [List.findIdx?_isSome, hany]
    obtain ⟨j, hj⟩ := Option.isSome_iff_exists.mp hsome
    obtain ⟨slots', hloop, hlen, hcount⟩ :=
      ih (slots.set j (some (mkTok r))) (counter + 1)
        (fun r' hr' => hall r' (List.mem_cons_of_mem _ hr'))
    refine ⟨slots', ?_, ?_, ?_⟩
    · rw [getTokensLoop, hj]
      show getTokensLoop inputs rs (slots.set j (some (mkTok r))) (counter + 1) = _
      rw [hloop]
      congr 2
      simp only [List.length_cons]
      omega
    · rw [hlen, List.length_set]
    · have := countP_le_countP_set_add_one (fun s => s.isNone) slots j (some (mkTok r))
      simp only [List.length_cons]
      omega

theorem mem_getTokensRows (db : List TokenRow) (inputs : List TokenID) (r : TokenRow) :
    r ∈ getTokensRows db inputs ↔
      r ∈ db ∧ (∃ i ∈ inputs, i = rowId r) ∧ r.isDeleted = false ∧ r.owner = true := by
  simp only [getTokensRows, List.mem_filter, liveOwnedFor, Bool.and_eq_true,
    Bool.not_eq_true', List.any_eq_true, rowMatches_iff]
  tauto

/-- The row scan with duplicate-free inputs and duplicate-free row keys:
afterwards a slot holds exactly the token of the row keyed by its input
id (and is untouched when no row matches it). -/
theorem getTokensLoop_spec (inputs : List TokenID) (hnd : inputs.Nodup) :
    ∀ (rs : List TokenRow) (slots : List (Option Tok)) (counter : Nat),
      slots.length = inputs.length →
      (∀ r ∈ rs, inputs.any (fun i => rowMatches i r) = true) →
      ((rs.map rowId).Nodup) →
      ∃ slots' : List (Option Tok),
        getTokensLoop inputs rs slots counter = .ok (slots', counter + rs.length) ∧
        slots'.length = inputs.length ∧
        ∀ (j : Nat) (i : TokenID), inputs[j]? = some i →
          ((∀ r ∈ rs, rowId r ≠ i) → slots'[j]? = slots[j]?) ∧
          (∀ r ∈ rs, rowId r = i → slots'[j]? = some (some (mkTok r))) := by
  intro rs
  induction rs with
  | nil =>
    intro slots counter hlen _ _
    exact ⟨slots, by simp [getTokensLoop], hlen,
      fun j i hji => ⟨fun _ => rfl, fun r hr => absurd hr (List.not_mem_nil r)⟩⟩
  | cons r rs ih =>
    intro slots counter hlen hall hknd
    have hany : inputs.any (fun i => rowMatches i r) = true :=
      hall r (List.mem_cons_self _ _)
    have hsome : (inputs.findIdx? (fun i => rowMatches i r)).isSome = true := by
      rw [List.findIdx?_isSome, hany]
    obtain ⟨j0, hj0⟩ := Option.isSome_iff_exists.mp hsome
    obtain ⟨hj0lt, hj0p, -⟩ := List.findIdx?_eq_some_iff_getElem.mp hj0
    have hj0match : inputs[j0] = rowId r := (rowMatches_iff _ _).mp hj0p
    have hknd2 : (∀ x ∈ rs, ¬ rowId x = rowId r) ∧ (rs.map rowId).Nodup := by
      simpa using hknd
    have hknd' : (rs.map rowId).Nodup := hknd2.2
    have hkey : ∀ x ∈ rs, rowId x ≠ rowId r := hknd2.1
    obtain ⟨slots', hloop, hlen', hchar⟩ :=
      ih (slots.set j0 (some (mkTok r))) (counter + 1)
        (by rw [List.length_set, hlen])
        (fun r' hr' => hall r' (List.mem_cons_of_mem _ hr')) hknd'
    refine ⟨slots', ?_, hlen', ?_⟩
    · rw [getTokensLoop, hj0]
      show getTokensLoop inputs rs (slots.set j0 (some (mkTok r))) (counter + 1) = _
      rw [hloop]
      congr 2
      simp only [List.length_cons]
      omega
    · intro j i hji
      obtain ⟨hjlt, hjget⟩ := List.getElem?_eq_some_iff.mp hji
      constructor
      · intro hnone
        have hrne : rowId r ≠ i := hnone r (List.mem_cons_self _ _)
        have hjne : j0 ≠ j := by
          rintro rfl
          exact hrne (hj0match.symm.trans hjget)
        rw [(hchar j i hji).1 (fun r' hr' => hnone r' (List.mem_cons_of_mem _ hr')),
          List.getElem?_set_ne hjne]
      · intro r' hr' heq
        rcases List.mem_cons.mp hr' with rfl | hmem
        · have hjj0 : j = j0 := by
            have : inputs[j] = inputs[j0] := by rw [hjget, hj0match, heq]
            exact (List.Nodup.getElem_inj_iff hnd).mp this
          subst hjj0
          have hnone' : ∀ r'' ∈ rs, rowId r'' ≠ i := by
            intro r'' hr'' hc
            exact hkey r'' hr'' (hc.trans heq.symm)
          rw [(hchar j i hji).1 hnone', List.getElem?_set_self (by rw [hlen]; exact hjlt)]
        · exact (hchar j i hji).2 r' hmem heq

theorem length_eq_of_nodup_mutual {α : Type} [DecidableEq α] (l1 l2 : List α)
    (h1 : l1.Nodup) (h2 : l2.Nodup)
    (s1 : ∀ a ∈ l1, a ∈ l2) (s2 : ∀ a ∈ l2, a ∈ l1) : l1.length = l2.length := by
  rw [← List.toFinset_card_of_nodup h1, ← List.toFinset_card_of_nodup h2]
  congr 1
  ext a
  simp only [List.mem_toFinset]
  exact ⟨fun h => s1 a h, fun h => s2 a h⟩

/-- The id `i` names a live owned token row of `db`. -/
def liveRowFor (db : List TokenRow) (i : TokenID) : Prop :=
  ∃ r ∈ db, rowId r = i ∧ r.owner = true ∧ r.isDeleted = false

instance (db : List TokenRow) (i : TokenID) : Decidable (liveRowFor db i) :=
  List.decidableBEx _ db

/-- Reduction of `getTokens` past the row scan. -/
theorem getTokens_eq (db : List TokenRow) (inputs : List TokenID)
    (slots' : List (Option Tok)) (c : Nat) (hne : inputs ≠ [])
    (hloop : getTokensLoop inputs (getTokensRows db inputs)
      (List.replicate inputs.length none) 0 = .ok (slots', c)) :
    getTokens db inputs =
      (if c = 0 then .error (notFoundMsg (inputs.headD ⟨"", 0⟩))
       else if c ≠ inputs.length then
         match slots'.findIdx? (fun s => s.isNone) with
         | some j => .error (notFoundMsg (inputs.getD j ⟨"", 0⟩))
         | none => .error "programming error: should not reach this point"
       else .ok slots') := by
  unfold getTokens
  rw [if_neg (by simpa [List.isEmpty_iff] using hne), hloop]

theorem rows_mem_any (db : List TokenRow) (inputs : List TokenID) :
    ∀ r ∈ getTokensRows db inputs, inputs.any (fun i => rowMatches i r) = true := by
  intro r hr
  obtain ⟨-, ⟨i, hi, hieq⟩, -, -⟩ := (mem_getTokensRows db inputs r).mp hr
  exact List.any_eq_true.mpr ⟨i, hi, (rowMatches_iff i r).mpr hieq⟩

theorem rows_keys_nodup (db : List TokenRow) (inputs : List TokenID)
    (hdb : (db.map rowId).Nodup) : ((getTokensRows db inputs).map rowId).Nodup :=
  List.Nodup.sublist (List.Sublist.map rowId (List.filter_sublist db)) hdb

/-- A live row for an input id belongs to the selected rows. -/
theorem live_mem_rows (db : List TokenRow) (inputs : List TokenID)
    (i : TokenID) (hi : i ∈ inputs) (r : TokenRow) (hr : r ∈ db)
    (hid : rowId r = i) (hown : r.owner = true) (hdel : r.isDeleted = false) :
    r ∈ getTokensRows db inputs :=
  (mem_getTokensRows db inputs r).mpr ⟨hr, ⟨i, hi, hid.symm⟩, hdel, hown⟩

/-- **C4 (amended)**: `GetTokens` on a non-empty list of pairwise-distinct
token ids.  When every id names a live owned row, the call returns one
token per id, each sitting at the position of its id in the input list;
otherwise it returns the NotFound message naming the first id without a
live owned row.  (`hdb` is the TOKENS primary key `(tx_id, idx)`.) -/
theorem getTokens_ordered (db : List TokenRow) (inputs : List TokenID)
    (hne : inputs ≠ []) (hnd : inputs.Nodup) (hdb : (db.map rowId).Nodup) :
    ((∀ i ∈ inputs, liveRowFor db i) →
      ∃ slots : List (Option Tok), getTokens db inputs = .ok slots ∧
        slots.length = inputs.length ∧
        ∀ (j : Nat) (i : TokenID), inputs[j]? = some i →
          ∀ r ∈ db, rowId r = i → r.owner = true → r.isDeleted = false →
            slots[j]? = some (some (mkTok r))) ∧
    (∀ (j : Nat) (i : TokenID), inputs[j]? = some i → ¬ liveRowFor db i →
      (∀ (j' : Nat) (i' : TokenID), j' < j → inputs[j']? = some i' → liveRowFor db i') →
      getTokens db inputs = .error (notFoundMsg i)) := by
  obtain ⟨slots', hloop, hlen, hchar⟩ :=
    getTokensLoop_spec inputs hnd (getTokensRows db inputs)
      (List.replicate inputs.length none) 0 (List.length_replicate _ _)
      (rows_mem_any db inputs) (rows_keys_nodup db inputs hdb)
  rw [Nat.zero_add] at hloop
  have hred := getTokens_eq db inputs slots' (getTokensRows db inputs).length hne hloop
  have hfilled : ∀ (j : Nat) (i : TokenID), inputs[j]? = some i → liveRowFor db i →
      ∀ r ∈ db, rowId r = i → r.owner = true → r.isDeleted = false →
        slots'[j]? = some (some (mkTok r)) := by
    intro j i hji _ r hr hid hown hdel
    exact (hchar j i hji).2 r
      (live_mem_rows db inputs i (List.getElem?_mem hji) r hr hid hown hdel) hid
  have hunfilled : ∀ (j : Nat) (i : TokenID), inputs[j]? = some i → ¬ liveRowFor db i →
      slots'[j]? = some none := by
    intro j i hji hmiss
    have hnone : ∀ r ∈ getTokensRows db inputs, rowId r ≠ i := by
      intro r hr hc
      obtain ⟨hrdb, -, hdel, hown⟩ := (mem_getTokensRows db inputs r).mp hr
      exact hmiss ⟨r, hrdb, hc, hown, hdel⟩
    rw [(hchar j i hji).1 hnone, List.getElem?_replicate_of_lt]
    exact (List.getElem?_eq_some_iff.mp hji).1
  constructor
  · intro hex
    have hcnt : (getTokensRows db inputs).length = inputs.length := by
      have h1 : ((getTokensRows db inputs).map rowId).length = inputs.length :=
        length_eq_of_nodup_mutual _ _ (rows_keys_nodup db inputs hdb) hnd
          (by
            intro a ha
            obtain ⟨r, hr, rfl⟩ := List.mem_map.mp ha
            obtain ⟨-, ⟨i, hi, hieq⟩, -, -⟩ := (mem_getTokensRows db inputs r).mp hr
            exact hieq ▸ hi)
          (by
            intro i hi
            obtain ⟨r, hr, hid, hown, hdel⟩ := hex i hi
            exact List.mem_map.mpr
              ⟨r, live_mem_rows db inputs i hi r hr hid hown hdel, hid⟩)
      rw [← h1, List.length_map]
    refine ⟨slots', ?_, hlen, ?_⟩
    · rw [hred, if_neg, if_neg]
      · intro hc
        exact hc hcnt
      · have : inputs.length ≠ 0 := by
          simpa [List.length_eq_zero] using hne
        omega
    · intro j i hji r hr hid hown hdel
      exact hfilled j i hji (hex i (List.getElem?_mem hji)) r hr hid hown hdel
  · intro j i hji hmiss hfirst
    have hjlt : j < inputs.length := (List.getElem?_eq_some_iff.mp hji).1
    by_cases hzero : (getTokensRows db inputs).length = 0
    · have hj0 : j = 0 := by
        by_contra h0
        obtain ⟨i0, hi0⟩ : ∃ i0, inputs[0]? = some i0 := by
          have : 0 < inputs.length := by omega
          exact ⟨_, List.getElem?_eq_getElem this⟩
        obtain ⟨r, hr, hid, hown, hdel⟩ := hfirst 0 i0 (by omega) hi0
        have : r ∈ getTokensRows db inputs :=
          live_mem_rows db inputs i0 (List.getElem?_mem hi0) r hr hid hown hdel
        rw [List.length_eq_zero.mp hzero] at this
        cases this
      subst hj0
      rw [hred, if_pos hzero]
      have : inputs.headD ⟨"", 0⟩ = i := by
        rw [List.headD_eq_head?_getD, List.head?_eq_getElem?, hji]
        rfl
      rw [this]
    · have hlt : (getTokensRows db inputs).length < inputs.length := by
        have hsub : ((getTokensRows db inputs).map rowId).toFinset ⊆ inputs.toFinset := by
          intro a ha
          rw [List.mem_toFinset] at ha ⊢
          obtain ⟨r, hr, rfl⟩ := List.mem_map.mp ha
          obtain ⟨-, ⟨i', hi', hieq⟩, -, -⟩ := (mem_getTokensRows db inputs r).mp hr
          exact hieq ▸ hi'
        have hinot : i ∉ ((getTokensRows db inputs).map rowId).toFinset := by
          rw [List.mem_toFinset]
          intro hc
          obtain ⟨r, hr, hid⟩ := List.mem_map.mp hc
          obtain ⟨hrdb, -, hdel, hown⟩ := (mem_getTokensRows db inputs r).mp hr
          exact hmiss ⟨r, hrdb, hid, hown, hdel⟩
        have hss : ((getTokensRows db inputs).map rowId).toFinset ⊂ inputs.toFinset :=
          Finset.ssubset_iff_of_subset hsub |>.mpr
            ⟨i, List.mem_toFinset.mpr (List.getElem?_mem hji), hinot⟩
        have h2 := Finset.card_lt_card hss
        have h3 := List.toFinset_card_of_nodup (rows_keys_nodup db inputs hdb)
        have h4 := List.toFinset_card_le inputs
        have h5 : ((getTokensRows db inputs).map rowId).length
            = (getTokensRows db inputs).length := List.length_map _ _
        omega
      have hfind : slots'.findIdx? (fun s => s.isNone) = some j := by
        rw [List.findIdx?_eq_some_iff_getElem]
        refine ⟨by omega, ?_, ?_⟩
        · have := hunfilled j i hji hmiss
          obtain ⟨h6, h7⟩ := List.getElem?_eq_some_iff.mp this
          rw [h7]
          rfl
        · intro j' hj'
          obtain ⟨i', hi'⟩ : ∃ i', inputs[j']? = some i' :=
            ⟨_, List.getElem?_eq_getElem (by omega)⟩
          obtain ⟨r, hr, hid, hown, hdel⟩ := hfirst j' i' hj' hi'
          have h8 := hfilled j' i' hi' ⟨r, hr, hid, hown, hdel⟩ r hr hid hown hdel
          obtain ⟨h9, h10⟩ := List.getElem?_eq_some_iff.mp h8
          rw [h10]
          simp
      rw [hred, if_neg hzero, if_pos (Nat.ne_of_lt hlt), hfind]
      show Except.error (notFoundMsg (inputs.getD j ⟨"", 0⟩)) = Except.error (notFoundMsg i)
      have : inputs.getD j ⟨"", 0⟩ = i := by
        rw [List.getD_eq_getElem?_getD, hji]
        rfl
      rw [this]

/-- A store holding the single live owned token ("t1", 0). -/
def dupDb : List TokenRow :=
  [⟨"t1", 0, [7], "USD", "100", true, false⟩]

/-- **C4 (counterexample)**: the claim as stated fails on a list with a
repeated id.  Both entries of `[("t1",0), ("t1",0)]` name an existing token
row with `owner = true` and `is_deleted = false`, yet `GetTokens` returns
the NotFound error instead of one token per id: the single retrieved row
fills only the first slot. -/
theorem getTokens_duplicate_id_counterexample :
    (∀ i ∈ [(⟨"t1", 0⟩ : TokenID), ⟨"t1", 0⟩], liveRowFor dupDb i) ∧
      getTokens dupDb [⟨"t1", 0⟩, ⟨"t1", 0⟩]
        = .error "token not found for key [t1:0]" :=
  ⟨by decide, rfl⟩

/-- A store holding live owned tokens ("a", 0) and ("b", 1). -/
def ordDb : List TokenRow :=
  [⟨"a", 0, [1], "USD", "10", true, false⟩,
   ⟨"b", 1, [2], "EUR", "20", true, false⟩]

/-- Witness for `getTokens_ordered`: querying `[("b",1), ("a",0)]` against
`ordDb` returns the two tokens in the order of the ids. -/
theorem getTokens_ordered_witness :
    ∃ slots : List (Option Tok),
      getTokens ordDb [⟨"b", 1⟩, ⟨"a", 0⟩] = .ok slots ∧
      slots.length = ([(⟨"b", 1⟩ : TokenID), ⟨"a", 0⟩]).length ∧
      ∀ (j : Nat) (i : TokenID), ([(⟨"b", 1⟩ : TokenID), ⟨"a", 0⟩])[j]? = some i →
        ∀ r ∈ ordDb, rowId r = i → r.owner = true → r.isDeleted = false →
          slots[j]? = some (some (mkTok r)) :=
  (getTokens_ordered ordDb [⟨"b", 1⟩, ⟨"a", 0⟩]
    (by decide) (by decide) (by decide)).1 (by decide)

theorem toFinset_card_lt_of_dup {α : Type} [DecidableEq α] (l : List α)
    (h : ¬ l.Nodup) : l.toFinset.card < l.length := by
  rw [List.card_toFinset]
  have hsub : l.dedup.length ≤ l.length := (List.dedup_sublist l).length_le
  rcases Nat.lt_or_ge l.dedup.length l.length with h1 | h1
  · exact h1
  · exfalso
    apply h
    have heq : l.dedup = l :=
      (List.dedup_sublist l).eq_of_length (Nat.le_antisymm hsub h1)
    rw [← heq]
    exact l.nodup_dedup

/-- **C10**: `GetTokens` on an id list containing a repeated id always
returns the NotFound error naming one of the requested ids, regardless of
whether the token exists: each retrieved row fills only the first matching
slot, so the filled-slot counter cannot reach the input length.
(`hdb` is the TOKENS primary key.) -/
theorem getTokens_duplicate_notFound (db : List TokenRow) (inputs : List TokenID)
    (hdb : (db.map rowId).Nodup) (hdup : ¬ inputs.Nodup) :
    ∃ i, i ∈ inputs ∧ getTokens db inputs = .error (notFoundMsg i) := by
  have hne : inputs ≠ [] := by
    rintro rfl
    exact hdup List.nodup_nil
  obtain ⟨slots', hloop, hlen, hcount⟩ :=
    getTokensLoop_ok inputs (getTokensRows db inputs)
      (List.replicate inputs.length none) 0 (rows_mem_any db inputs)
  rw [Nat.zero_add] at hloop
  have hred := getTokens_eq db inputs slots' (getTokensRows db inputs).length hne hloop
  have hlt : (getTokensRows db inputs).length < inputs.length := by
    have h3 := List.toFinset_card_of_nodup (rows_keys_nodup db inputs hdb)
    have hsub : ((getTokensRows db inputs).map rowId).toFinset ⊆ inputs.toFinset := by
      intro a ha
      rw [List.mem_toFinset] at ha ⊢
      obtain ⟨r, hr, rfl⟩ := List.mem_map.mp ha
      obtain ⟨-, ⟨i', hi', hieq⟩, -, -⟩ := (mem_getTokensRows db inputs r).mp hr
      exact hieq ▸ hi'
    have h2 := Finset.card_le_card hsub
    have h4 := toFinset_card_lt_of_dup inputs hdup
    have h5 : ((getTokensRows db inputs).map rowId).length
        = (getTokensRows db inputs).length := List.length_map _ _
    omega
  by_cases hzero : (getTokensRows db inputs).length = 0
  · cases inputs with
    | nil => exact absurd rfl hne
    | cons x xs =>
      exact ⟨x, List.mem_cons_self _ _, by rw [hred, if_pos hzero]; rfl⟩
  · have hnone : ∃ s ∈ slots', s.isNone = true := by
      have hrep : (List.replicate inputs.length (none : Option Tok)).countP
          (fun s => s.isNone) = inputs.length := by
        rw [List.countP_eq_length.mpr]
        · exact List.length_replicate _ _
        · intro a ha
          rw [List.eq_of_mem_replicate ha]
          rfl
      have hpos : 0 < slots'.countP (fun s => s.isNone) := by
        rw [hrep] at hcount
        omega
      simpa using List.countP_pos_iff.mp hpos
    have hfsome : (slots'.findIdx? (fun s => s.isNone)).isSome = true := by
      rw [List.findIdx?_isSome, List.any_eq_true]
      simpa using hnone
    obtain ⟨j, hj⟩ := Option.isSome_iff_exists.mp hfsome
    obtain ⟨hjlt, -, -⟩ := List.findIdx?_eq_some_iff_getElem.mp hj
    have hjlen : j < inputs.length := by
      rw [hlen, List.length_replicate] at hjlt
      exact hjlt
    refine ⟨inputs.getD j ⟨"", 0⟩, ?_, ?_⟩
    · rw [List.getD_eq_getElem?_getD, List.getElem?_eq_getElem hjlen]
      exact List.getElem_mem _
    · rw [hred, if_neg hzero, if_pos (Nat.ne_of_lt hlt), hj]

/-- Witness for `getTokens_duplicate_notFound` at a concrete duplicated
query: both copies of ("a", 0) exist and are live, yet the call fails. -/
theorem getTokens_duplicate_notFound_witness :
    ∃ i, i ∈ [(⟨"a", 0⟩ : TokenID), ⟨"a", 0⟩] ∧
      getTokens ordDb [⟨"a", 0⟩, ⟨"a", 0⟩] = .error (notFoundMsg i) :=
  getTokens_duplicate_notFound ordDb [⟨"a", 0⟩, ⟨"a", 0⟩] (by decide) (by decide)

/-! ## Movements: the dead pointer-equality skip (C3) -/

/-- A transfer from "alice" back to "alice": received and sent sums are both
numerically 5, so the claimed `diff == 0` skip should drop the pair. -/
def selfTransferRec : AuditRecord where
  anchor := "t5"
  inputs := [⟨0, "alice", "USD", 5⟩]
  outputs := [⟨0, "alice", "USD", 5⟩]

/-- The movement record the code emits for `selfTransferRec`. -/
def zeroMovement : MovementRecord where
  txID := "t5"
  enrollmentID := "alice"
  amount := 0
  tokenType := "USD"
  timestamp := 9
  status := .pending

/-- **C3** (evaluation at the failing input): `Movements` on the
self-transfer record emits a movement record with `Amount = 0` instead of
skipping the pair whose received and sent sums are equal — the source's
skip guard `sent == received` compares the two freshly allocated
`*big.Int` pointers, never their values, and thus never fires. -/
theorem movements_zero_diff_emitted :
    movements selfTransferRec 9 = [zeroMovement] ∧ zeroMovement.amount = 0 :=
  ⟨rfl, rfl⟩

/-! ## `DB.SetStatus` and the status notifier (C5) -/

/-- `db.StatusEvent`: what `Notify` publishes. -/
structure StatusEvent where
  txID : String
  validationCode : TxStatus
deriving DecidableEq, Repr

/-- `DB.SetStatus` (`ttxdb/db.go`): calls the backend store's `SetStatus`;
on backend error it returns the wrapped error without notifying anybody;
on success it publishes exactly one status event carrying the tx id and
the status, then returns nil.  The backend's own update is outside the
analysed sources, so its outcome is the parameter `backend`; the second
component is the list of events published during the call, in order. -/
def setStatus (backend : Except String Unit) (txID : String) (status : TxStatus) :
    Except String Unit × List StatusEvent :=
  match backend with
  | .error e => (.error ("failed setting status [" ++ txID ++ "]: " ++ e), [])
  | .ok _ => (.ok (), [⟨txID, status⟩])

/-- **C5**: if the backend status update fails, `SetStatus` returns the
error and publishes no event; if it succeeds, exactly one event carrying
the tx id and the status is published (necessarily after the backend call
returned, since the event exists only in the success branch) and
`SetStatus` returns nil. -/
theorem setStatus_events (backend : Except String Unit) (txID : String)
    (status : TxStatus) :
    (∀ e, backend = .error e →
      setStatus backend txID status
        = (.error ("failed setting status [" ++ txID ++ "]: " ++ e), [])) ∧
    (backend = .ok () →
      setStatus backend txID status
        = (.ok (), [{ txID := txID, validationCode := status }])) := by
  constructor
  · intro e he
    rw [he]
    rfl
  · intro h
    rw [h]
    rfl

/-- Witness for `setStatus_events` at both concrete backend outcomes. -/
theorem setStatus_events_witness :
    setStatus (.error "boom") "tx1" .confirmed
      = (.error "failed setting status [tx1]: boom", []) ∧
    setStatus (.ok ()) "tx1" .confirmed
      = (.ok (), [{ txID := "tx1", validationCode := .confirmed }]) :=
  ⟨(setStatus_events (.error "boom") "tx1" .confirmed).1 "boom" rfl,
    (setStatus_events (.ok ()) "tx1" .confirmed).2 rfl⟩

/-! ## The token-request cache and the append paths (C6, C9) -/

/-- Byte slices. -/
abbrev Bytes := List Nat

/-- Modelled from the spec: the token-request cache (`secondcache`,
capacity 1000, outside the analysed sources) as an association list whose
`Add` prepends a binding and whose `Get` finds the most recent one.
Eviction is a latency concern only (§4.C) and no claim depends on it. -/
def cacheGet : List (String × Bytes) → String → Option Bytes
  | [], _ => none
  | (k', v) :: rest, k => if k = k' then some v else cacheGet rest k

def cacheAdd (c : List (String × Bytes)) (k : String) (v : Bytes) :
    List (String × Bytes) :=
  (k, v) :: c

theorem cacheGet_cacheAdd (c : List (String × Bytes)) (k : String) (v : Bytes) :
    cacheGet (cacheAdd c k v) k = some v := by
  simp [cacheGet, cacheAdd]

/-- `DB.GetTokenRequest` (`ttxdb/db.go`): consult the cache first; on a hit
return the cached bytes; on a miss return whatever the backend returns.
The second component is the cache after the call — the code never writes
to the cache here. -/
def getTokenRequest (cache : List (String × Bytes))
    (backend : String → Except String Bytes) (txID : String) :
    Except String Bytes × List (String × Bytes) :=
  match cacheGet cache txID with
  | some res => (.ok res, cache)
  | none => (backend txID, cache)

/-- The observable rows of the transaction store backend. -/
structure TtxStore where
  requests : List (String × Bytes)
  transactions : List TransactionRecord
  validations : List (String × List (String × Bytes))
deriving DecidableEq, Repr

/-- Modelled from the spec: the outcomes of the driver's atomic-write
operations (the driver is outside the analysed sources); each flag decides
whether the corresponding handle call fails. -/
structure WriteOracle where
  beginFails : Bool
  addTokenRequestFails : Bool
  addTransactionFails : TransactionRecord → Bool
  addValidationRecordFails : Bool
  commitFails : Bool

/-- The in-memory state of a `DB`: request cache plus backend rows. -/
structure DBState where
  cache : List (String × Bytes)
  store : TtxStore

/-- Modelled from the spec: the backend `GetTokenRequest` returns the
stored request bytes, or an error when no row exists. -/
def storeGetTokenRequest (store : TtxStore) (txID : String) : Except String Bytes :=
  match cacheGet store.requests txID with
  | some r => .ok r
  | none => .error ("no token request for [" ++ txID ++ "]")

/-- `DB.GetTokenRequest` against a full `DBState`. -/
def dbGetTokenRequest (st : DBState) (txID : String) :
    Except String Bytes × List (String × Bytes) :=
  getTokenRequest st.cache (storeGetTokenRequest st.store) txID

/-- `DB.AppendTransactionRecord` (`ttxdb/db.go`): parse the audit record
into transaction records, begin an atomic write, insert the raw request
into the cache, then `AddTokenRequest`, `AddTransaction` per record, and
`Commit`; any backend failure rolls the backend back (leaving its rows
unchanged) and returns the error — the cache insertion is never undone. -/
def appendTransactionRecord (o : WriteOracle) (st : DBState)
    (record : AuditRecord) (raw : Bytes) (ts : Nat) :
    Except String Unit × DBState :=
  match transactionRecords record ts with
  | .error e => (.error e, st)
  | .ok txs =>
    if o.beginFails then
      (.error ("begin update for txid [" ++ record.anchor ++ "] failed"), st)
    else
      let cache' := cacheAdd st.cache record.anchor raw
      if o.addTokenRequestFails then
        (.error ("append token request for txid [" ++ record.anchor ++ "] failed"),
          { st with cache := cache' })
      else
        match txs.find? o.addTransactionFails with
        | some _ =>
          (.error ("append transactions for txid [" ++ record.anchor ++ "] failed"),
            { st with cache := cache' })
        | none =>
          if o.commitFails then
            (.error ("committing tx for txid [" ++ record.anchor ++ "] failed"),
              { st with cache := cache' })
          else
            (.ok (),
              { cache := cache'
                store :=
                  { st.store with
                    requests := (record.anchor, raw) :: st.store.requests
                    transactions := txs ++ st.store.transactions } })

/-- `DB.AppendValidationRecord` (`ttxdb/db.go`): begin an atomic write,
insert the token request into the cache, then `AddTokenRequest`,
`AddValidationRecord` and `Commit`, rolling back the backend on failure —
again without undoing the cache insertion. -/
def appendValidationRecord (o : WriteOracle) (st : DBState) (txID : String)
    (tokenRequest : Bytes) (meta : List (String × Bytes)) :
    Except String Unit × DBState :=
  if o.beginFails then
    (.error ("begin update for txid [" ++ txID ++ "] failed"), st)
  else
    let cache' := cacheAdd st.cache txID tokenRequest
    if o.addTokenRequestFails then
      (.error ("append token request for txid [" ++ txID ++ "] failed"),
        { st with cache := cache' })
    else if o.addValidationRecordFails then
      (.error ("append validation record for txid [" ++ txID ++ "] failed"),
        { st with cache := cache' })
    else if o.commitFails then
      (.error ("append validation record commit for txid [" ++ txID ++ "] failed"),
        { st with cache := cache' })
    else
      (.ok (),
        { cache := cache'
          store :=
            { st.store with
              requests := (txID, tokenRequest) :: st.store.requests
              validations := (txID, meta) :: st.store.validations } })

/-- **C6 (counterexample)**: a `GetTokenRequest` cache miss answered by the
backend does *not* add the returned bytes to the cache: the call returns
the backend's bytes while the cache after the call still lacks the key. -/
theorem getTokenRequest_miss_not_cached :
    getTokenRequest []
        (fun t => if t = "t1" then .ok [1, 2, 3] else .error "no") "t1"
      = (.ok [1, 2, 3], []) ∧
    cacheGet [] "t1" = none :=
  ⟨rfl, rfl⟩

/-- The cache component of `AppendTransactionRecord`'s result, once the
parse and the begin succeeded. -/
theorem appendTransactionRecord_cache (o : WriteOracle) (st : DBState)
    (record : AuditRecord) (raw : Bytes) (ts : Nat) (txs : List TransactionRecord)
    (hok : transactionRecords record ts = .ok txs) (hbegin : o.beginFails = false) :
    (appendTransactionRecord o st record raw ts).2.cache
      = cacheAdd st.cache record.anchor raw := by
  unfold appendTransactionRecord
  rw [hok]
  show (if o.beginFails then _ else _ : Except String Unit × DBState).2.cache = _
  rw [hbegin]
  simp only [Bool.false_eq_true, if_false]
  split
  · rfl
  · split
    · rfl
    · split
      · rfl
      · rfl

/-- **C6 (amended)**: `GetTokenRequest` consults the request cache first
and, on a hit, returns the cached bytes with no backend involvement (the
result does not depend on the backend); on a miss the backend's answer is
returned unchanged (and not cached); the cache is populated by
`AppendTransactionRecord` through the atomic write handle. -/
theorem tokenRequest_cache_policy :
    (∀ (cache : List (String × Bytes)) (backend : String → Except String Bytes)
        (txID : String) (v : Bytes),
        cacheGet cache txID = some v →
        getTokenRequest cache backend txID = (.ok v, cache)) ∧
    (∀ (cache : List (String × Bytes)) (b1 b2 : String → Except String Bytes)
        (txID : String) (v : Bytes),
        cacheGet cache txID = some v →
        getTokenRequest cache b1 txID = getTokenRequest cache b2 txID) ∧
    (∀ (cache : List (String × Bytes)) (backend : String → Except String Bytes)
        (txID : String),
        cacheGet cache txID = none →
        getTokenRequest cache backend txID = (backend txID, cache)) ∧
    (∀ (o : WriteOracle) (st : DBState) (record : AuditRecord) (raw : Bytes)
        (ts : Nat) (txs : List TransactionRecord),
        transactionRecords record ts = .ok txs → o.beginFails = false →
        cacheGet (appendTransactionRecord o st record raw ts).2.cache record.anchor
          = some raw) := by
  refine ⟨?_, ?_, ?_, ?_⟩
  · intro cache backend txID v h
    unfold getTokenRequest
    rw [h]
  · intro cache b1 b2 txID v h
    unfold getTokenRequest
    rw [h]
  · intro cache backend txID h
    unfold getTokenRequest
    rw [h]
  · intro o st record raw ts txs hok hbegin
    rw [appendTransactionRecord_cache o st record raw ts txs hok hbegin]
    exact cacheGet_cacheAdd _ _ _

/-- Witness for `tokenRequest_cache_policy` at concrete cache states. -/
theorem tokenRequest_cache_policy_witness :
    getTokenRequest [("a", [1])] (fun _ => .error "down") "a"
        = (.ok [1], [("a", [1])]) ∧
    getTokenRequest [("a", [1])] (fun _ => .error "down") "a"
        = getTokenRequest [("a", [1])] (fun _ => .ok [5]) "a" ∧
    getTokenRequest [] (fun _ => .error "down") "b"
        = (.error "down", []) ∧
    cacheGet (appendTransactionRecord
        ⟨false, true, fun _ => false, false, false⟩
        ⟨[], ⟨[], [], []⟩⟩ transferRec [9] 0).2.cache transferRec.anchor
      = some [9] :=
  ⟨tokenRequest_cache_policy.1 [("a", [1])] (fun _ => .error "down") "a" [1] rfl,
    tokenRequest_cache_policy.2.1 [("a", [1])] (fun _ => .error "down")
      (fun _ => .ok [5]) "a" [1] rfl,
    tokenRequest_cache_policy.2.2.1 [] (fun _ => .error "down") "b" rfl,
    tokenRequest_cache_policy.2.2.2 ⟨false, true, fun _ => false, false, false⟩
      ⟨[], ⟨[], [], []⟩⟩ transferRec [9] 0 _ rfl rfl⟩

/-- **C9**: both append paths insert the request bytes into the cache
before the backend write commits; whenever the write later fails (token
request insert, transaction insert, or commit), the call returns the error
with the backend rows untouched while the cache keeps the bytes, so a
subsequent `GetTokenRequest` on that anchor answers from the cache even
though the backend has no row for it. -/
theorem append_error_leaves_cache_populated (o : WriteOracle) (st : DBState) :
    (∀ (record : AuditRecord) (raw : Bytes) (ts : Nat) (txs : List TransactionRecord),
        transactionRecords record ts = .ok txs →
        o.beginFails = false →
        (o.addTokenRequestFails = true ∨ (∃ tx ∈ txs, o.addTransactionFails tx = true)
          ∨ o.commitFails = true) →
        cacheGet st.store.requests record.anchor = none →
        ∃ e, appendTransactionRecord o st record raw ts
            = (.error e, { st with cache := cacheAdd st.cache record.anchor raw }) ∧
          (dbGetTokenRequest { st with cache := cacheAdd st.cache record.anchor raw }
              record.anchor).1 = .ok raw ∧
          ∃ e2, storeGetTokenRequest st.store record.anchor = .error e2) ∧
    (∀ (txID : String) (tokenRequest : Bytes) (meta : List (String × Bytes)),
        o.beginFails = false →
        (o.addTokenRequestFails = true ∨ o.addValidationRecordFails = true
          ∨ o.commitFails = true) →
        ∃ e, appendValidationRecord o st txID tokenRequest meta
            = (.error e, { st with cache := cacheAdd st.cache txID tokenRequest }) ∧
          (dbGetTokenRequest { st with cache := cacheAdd st.cache txID tokenRequest }
              txID).1 = .ok tokenRequest) := by
  have hget : ∀ (cache : List (String × Bytes)) (store : TtxStore)
      (k : String) (v : Bytes),
      (dbGetTokenRequest { cache := cacheAdd cache k v, store := store } k).1 = .ok v := by
    intro cache store k v
    unfold dbGetTokenRequest getTokenRequest
    rw [cacheGet_cacheAdd]
  constructor
  · intro record raw ts txs hok hbegin hfail hnorow
    have hstore : ∃ e2, storeGetTokenRequest st.store record.anchor = .error e2 := by
      refine ⟨"no token request for [" ++ record.anchor ++ "]", ?_⟩
      unfold storeGetTokenRequest
      rw [hnorow]
    have happ : ∃ e, appendTransactionRecord o st record raw ts
        = (.error e, { st with cache := cacheAdd st.cache record.anchor raw }) := by
      unfold appendTransactionRecord
      rw [hok]
      show ∃ e, (if o.beginFails then _ else _ : Except String Unit × DBState) = _
      rw [hbegin]
      simp only [Bool.false_eq_true, if_false]
      by_cases h1 : o.addTokenRequestFails = true
      · rw [if_pos h1]
        exact ⟨_, rfl⟩
      · rw [if_neg h1]
        cases hfind : txs.find? o.addTransactionFails with
        | some tx => exact ⟨_, rfl⟩
        | none =>
          have hcommit : o.commitFails = true := by
            rcases hfail with h | h | h
            · exact absurd h h1
            · obtain ⟨tx, htx, hp⟩ := h
              have := List.find?_eq_none.mp hfind tx htx
              exact absurd hp (by simpa using this)
            · exact h
          rw [if_pos hcommit]
          exact ⟨_, rfl⟩
    obtain ⟨e, he⟩ := happ
    exact ⟨e, he, hget st.cache st.store record.anchor raw, hstore⟩
  · intro txID tokenRequest meta hbegin hfail
    have happ : ∃ e, appendValidationRecord o st txID tokenRequest meta
        = (.error e, { st with cache := cacheAdd st.cache txID tokenRequest }) := by
      unfold appendValidationRecord
      rw [hbegin]
      simp only [Bool.false_eq_true, if_false]
      by_cases h1 : o.addTokenRequestFails = true
      · rw [if_pos h1]
        exact ⟨_, rfl⟩
      · rw [if_neg h1]
        by_cases h2 : o.addValidationRecordFails = true
        · rw [if_pos h2]
          exact ⟨_, rfl⟩
        · rw [if_neg h2]
          have hcommit : o.commitFails = true := by
            rcases hfail with h | h | h
            · exact absurd h h1
            · exact absurd h h2
            · exact h
          rw [if_pos hcommit]
          exact ⟨_, rfl⟩
    obtain ⟨e, he⟩ := happ
    exact ⟨e, he, hget st.cache st.store txID tokenRequest⟩

/-- Witness for `append_error_leaves_cache_populated` with a failing
`AddTokenRequest` on an empty state. -/
theorem append_error_leaves_cache_populated_witness :
    (∃ e, appendTransactionRecord ⟨false, true, fun _ => false, false, false⟩
        ⟨[], ⟨[], [], []⟩⟩ transferRec [9] 0
        = (.error e, { cache := cacheAdd [] transferRec.anchor [9]
                       store := ⟨[], [], []⟩ }) ∧
      (dbGetTokenRequest { cache := cacheAdd [] transferRec.anchor [9]
                           store := ⟨[], [], []⟩ } transferRec.anchor).1 = .ok [9] ∧
      ∃ e2, storeGetTokenRequest ⟨[], [], []⟩ transferRec.anchor = .error e2) ∧
    (∃ e, appendValidationRecord ⟨false, true, fun _ => false, false, false⟩
        ⟨[], ⟨[], [], []⟩⟩ "v1" [4] []
        = (.error e, { cache := cacheAdd [] "v1" [4]
                       store := ⟨[], [], []⟩ }) ∧
      (dbGetTokenRequest { cache := cacheAdd [] "v1" [4]
                           store := ⟨[], [], []⟩ } "v1").1 = .ok [4]) :=
  ⟨(append_error_leaves_cache_populated ⟨false, true, fun _ => false, false, false⟩
      ⟨[], ⟨[], [], []⟩⟩).1 transferRec [9] 0 _ rfl rfl (Or.inl rfl) rfl,
    (append_error_leaves_cache_populated ⟨false, true, fun _ => false, false, false⟩
      ⟨[], ⟨[], [], []⟩⟩).2 "v1" [4] [] rfl (Or.inl rfl)⟩

/-! ## The reconciliation status cross-check (C7) -/

/-- Vault validation codes (`network.Unknown/Valid/Invalid/Busy`). -/
inductive VaultStatus where
  | unknown
  | valid
  | invalid
  | busy
deriving DecidableEq, Repr

/-- Modelled from the spec: `driver.TxStatusMessage`, the status-to-string
map used in the unknown-for-vault message. -/
def txStatusMessage : TxStatus → String
  | .unknown => "Unknown"
  | .pending => "Pending"
  | .confirmed => "Confirmed"
  | .deleted => "Deleted"

/-- The (tx id, status) view of a stored transaction record that
`CheckTTXDBView.Call` iterates over. -/
structure StoreRecord where
  txID : String
  status : TxStatus
deriving DecidableEq, Repr

/-- The per-record vault-status switch of `CheckTTXDBView.Call`
(`views` package, lines 81–101): on a vault probe error one failure
string; otherwise the first matching case of the switch appends one
mismatch string; matching no case appends nothing. -/
def vaultStatusMismatches (vault : String → Except String VaultStatus)
    (r : StoreRecord) : List String :=
  match vault r.txID with
  | .error e =>
    ["failed to get vault status transaction record [" ++ r.txID ++ "]: [" ++ e ++ "]"]
  | .ok vc =>
    if vc = .unknown then
      ["transaction record [" ++ r.txID ++ "] is unknown for vault but not for the db ["
        ++ txStatusMessage r.status ++ "]"]
    else if vc = .valid ∧ r.status = .pending then
      ["transaction record [" ++ r.txID ++ "] is valid for vault but pending for the db"]
    else if vc = .valid ∧ r.status = .deleted then
      ["transaction record [" ++ r.txID ++ "] is valid for vault but deleted for the db"]
    else if vc = .invalid ∧ r.status = .confirmed then
      ["transaction record [" ++ r.txID ++ "] is invalid for vault but confirmed for the db"]
    else if vc = .invalid ∧ r.status = .pending then
      ["transaction record [" ++ r.txID ++ "] is invalid for vault but pending for the db"]
    else if vc = .busy ∧ r.status = .confirmed then
      ["transaction record [" ++ r.txID ++ "] is busy for vault but confirmed for the db"]
    else if vc = .busy ∧ r.status = .deleted then
      ["transaction record [" ++ r.txID ++ "] is busy for vault but deleted for the db"]
    else []

/-- The status cross-check over the whole store: the concatenated
per-record mismatch strings, in iteration order, together with the store
it iterated over — the loop only reads through the iterator, so the store
comes back unchanged. -/
def statusCrossCheck (store : List StoreRecord)
    (vault : String → Except String VaultStatus) : List String × List StoreRecord :=
  (store.flatMap (vaultStatusMismatches vault), store)

/-- **C7**: a record whose vault status is valid while the store's status
is pending contributes exactly the one mismatch string
"... valid for vault but pending for the db" naming its tx id to the
output list, and the cross-check leaves the store unchanged. -/
theorem statusCrossCheck_valid_pending (store : List StoreRecord)
    (vault : String → Except String VaultStatus) (r : StoreRecord)
    (_hmem : r ∈ store) (hv : vault r.txID = .ok .valid)
    (hs : r.status = .pending) :
    vaultStatusMismatches vault r =
      ["transaction record [" ++ r.txID ++ "] is valid for vault but pending for the db"] ∧
    (statusCrossCheck store vault).1 = store.flatMap (vaultStatusMismatches vault) ∧
    (statusCrossCheck store vault).2 = store := by
  refine ⟨?_, rfl, rfl⟩
  unfold vaultStatusMismatches
  rw [hv, hs]
  simp

/-- Witness for `statusCrossCheck_valid_pending` at the spec's
reconciliation-drift scenario: store record (T1, pending), vault valid. -/
theorem statusCrossCheck_valid_pending_witness :
    vaultStatusMismatches (fun _ => .ok .valid) ⟨"T1", .pending⟩ =
      ["transaction record [T1] is valid for vault but pending for the db"] ∧
    (statusCrossCheck [⟨"T1", .pending⟩] (fun _ => .ok .valid)).1 =
      ([⟨"T1", .pending⟩] : List StoreRecord).flatMap
        (vaultStatusMismatches (fun _ => .ok .valid)) ∧
    (statusCrossCheck [⟨"T1", .pending⟩] (fun _ => .ok .valid)).2 =
      [⟨"T1", .pending⟩] :=
  statusCrossCheck_valid_pending [⟨"T1", .pending⟩] (fun _ => .ok .valid)
    ⟨"T1", .pending⟩ (by decide) rfl rfl

end FabricTokenSDK
